import Mathlib

/-!
Verification of the chess-uci-mcp engine bridge (`src/chess_uci_mcp/`).

The development shallowly embeds the Python code of `engine.py` and
`config.py` as executable Lean functions:

* Python values of type `ConfigValue = Union[str, int, bool, None]` become
  the inductive `ConfigValue`; Python's `isinstance` behaviour (notably
  that `bool` is a subclass of `int`) is embedded explicitly.
* Python dictionaries become association lists processed in insertion
  order; `dict.update` becomes `dictUpdate`, and lookups `dictGet`.
* Exceptions become `Except`; an operation that writes to the engine
  process additionally returns the list of commands it sent, so that
  "no engine interaction happened" is expressible as an empty list.
* Python floats produced by `score / 100.0` are modelled as exact
  rationals (the quotient the code computes).
-/

/-- Embedding of the Python value space `ConfigValue = Union[str, int, bool, None]`
(`types.py`). -/
inductive ConfigValue where
  | str (s : String)
  | int (n : Int)
  | bool (b : Bool)
  | none
deriving DecidableEq, Repr

/-- Python `type(value).__name__` for a `ConfigValue`. -/
def pyTypeName : ConfigValue → String
  | .str _ => "str"
  | .int _ => "int"
  | .bool _ => "bool"
  | .none => "NoneType"

/-- Python `isinstance(value, bool)`. -/
def isInstBool : ConfigValue → Bool
  | .bool _ => true
  | _ => false

/-- Python `isinstance(value, int)`: true for `int` AND for `bool`, because
`bool` is a subclass of `int` in Python. -/
def isInstInt : ConfigValue → Bool
  | .int _ => true
  | .bool _ => true
  | _ => false

/-- Python `isinstance(value, (str, type(None)))`. -/
def isInstStrOrNone : ConfigValue → Bool
  | .str _ => true
  | .none => true
  | _ => false

/-- The integer a `ConfigValue` denotes in Python integer comparisons
(`True == 1`, `False == 0`); only applied to values that pass `isInstInt`. -/
def pyIntVal : ConfigValue → Int
  | .int n => n
  | .bool true => 1
  | .bool false => 0
  | _ => 0

/-- Python `str(value)` as used by f-string interpolation of a `ConfigValue`. -/
def pyStr : ConfigValue → String
  | .str s => s
  | .int n => toString n
  | .bool true => "True"
  | .bool false => "False"
  | .none => "None"

/-- Python `repr` of a list of strings, as interpolated by f-strings. -/
def pyStrListRepr (l : List String) : String :=
  "[" ++ String.intercalate ", " (l.map (fun s => "\x27" ++ s ++ "\x27")) ++ "]"

/-- Python membership test `value in var` where `var : list[str]`: only a
string value can compare equal to an element. -/
def pyMemStrList : ConfigValue → List String → Bool
  | .str s, vs => vs.contains s
  | _, _ => false

/-- One engine-advertised UCI option as held by `self.engine.options`
in python-chess: name, type tag, default, optional spin bounds, optional
combo value list. -/
structure UciOption where
  name : String
  type : String
  default : ConfigValue
  min : Option Int
  max : Option Int
  var : Option (List String)
deriving DecidableEq, Repr

/-- `UCIEngine._validate_option_value` (engine.py lines 305-334), translated
clause by clause: the `check`/`spin`/`combo`/`string` branches with the same
tests in the same order, `button` (and any other type) falling through to
`None` (no error). -/
def validate_option_value (option : UciOption) (value : ConfigValue) : Option String :=
  if option.type = "check" then
    if isInstBool value = false then
      some ("Expected boolean value for check option, got " ++ pyTypeName value)
    else
      Option.none
  else if option.type = "spin" then
    if isInstInt value = false then
      some ("Expected integer value for spin option, got " ++ pyTypeName value)
    else if (match option.min with
             | some mn => decide (pyIntVal value < mn)
             | Option.none => false) then
      some ("Value " ++ pyStr value ++ " is below minimum "
        ++ toString (option.min.getD 0))
    else if (match option.max with
             | some mx => decide (mx < pyIntVal value)
             | Option.none => false) then
      some ("Value " ++ pyStr value ++ " is above maximum "
        ++ toString (option.max.getD 0))
    else
      Option.none
  else if option.type = "combo" then
    if (match option.var with
        | some vs => !vs.isEmpty && !pyMemStrList value vs
        | Option.none => false) then
      some ("Value \x27" ++ pyStr value ++ "\x27 not in allowed values: "
        ++ pyStrListRepr (option.var.getD []))
    else
      Option.none
  else if option.type = "string" then
    if isInstStrOrNone value = false then
      some ("Expected string value for string option, got " ++ pyTypeName value)
    else
      Option.none
  else
    Option.none

/-- Lookup of `name` in `self.engine.options` (a python-chess mapping keyed by
option name): the Python tests `name in supported_options` and
`supported_options[name]`. -/
def findOption (supported : List UciOption) (name : String) : Option UciOption :=
  supported.find? (fun o => o.name == name)

/-- The per-key classification loop of `UCIEngine.set_options`
(engine.py lines 283-295): each supplied `(name, value)` pair goes to
`errors` when the name is unsupported or the value fails validation, and to
`applied` otherwise, preserving input order. -/
def set_options_pure (supported : List UciOption) :
    List (String × ConfigValue) →
      List (String × ConfigValue) × List (String × String)
  | [] => ([], [])
  | (name, value) :: rest =>
    let res := set_options_pure supported rest
    match findOption supported name with
    | Option.none =>
      (res.1, (name, "Option \x27" ++ name ++ "\x27 is not supported by this engine") :: res.2)
    | some o =>
      match validate_option_value o value with
      | some err => (res.1, (name, err) :: res.2)
      | Option.none => ((name, value) :: res.1, res.2)

/-- The score `score.white()` yields in `_format_score`: either a centipawn
value (`Cp`) or a mate distance (`Mate`; python-chess's `MateGiven` reports
mate distance `0`). For a `cp` score `is_mate()` is false and `score()` is
the integer; for a `mate` score `is_mate()` is true and `mate()` is the
integer. -/
inductive WhiteScore where
  | cp (v : Int)
  | mate (n : Int)
deriving DecidableEq, Repr

/-- The heterogeneous Python value `_format_score` returns: a float
(`score / 100.0`, modelled as the exact rational), the string `"mate<N>"`,
or `None`. -/
inductive FormattedScore where
  | num (q : Rat)
  | strVal (s : String)
  | noneVal
deriving DecidableEq, Repr

/-- `UCIEngine._format_score` (engine.py lines 183-208): `None` stays `None`;
a mate score becomes the string `"mate" + str(n)`; a centipawn score becomes
`score / 100.0`. -/
def format_score : Option WhiteScore → FormattedScore
  | Option.none => .noneVal
  | some (.mate n) => .strVal ("mate" ++ toString n)
  | some (.cp v) => .num ((v : Rat) / 100)

/-- The info dictionary `engine.analyse` returns to `analyze_position`
(the fields the code reads: `depth`, `score`, `pv`). A field absent from the
dictionary is `Option.none`; `score` is already taken from White's
perspective as `_format_score` does via `score.white()`. -/
structure InfoDict where
  depth : Option Nat
  score : Option WhiteScore
  pv : Option (List String)
deriving DecidableEq, Repr

/-- The result dictionary built by `analyze_position` (engine.py lines
112-117). -/
structure AnalysisResult where
  depth : Nat
  score : FormattedScore
  pv : List String
  best_move : Option String
deriving DecidableEq, Repr

/-- The result formatting of `UCIEngine.analyze_position` (engine.py lines
112-117): `depth` defaults to 0, `score` through `_format_score`, `pv` as
UCI strings, and `best_move` as the first move of the principal variation
when `info.get("pv")` is truthy (present and non-empty), else `None`. -/
def format_result (info : InfoDict) : AnalysisResult :=
  { depth := info.depth.getD 0
    score := format_score info.score
    pv := info.pv.getD []
    best_move :=
      match info.pv with
      | some (m :: _) => some m
      | some [] => Option.none
      | Option.none => Option.none }

/-- One completed `engine.analyse` exchange as seen at the boundary of
`analyze_position`: the info dictionary accumulated from the engine's
`info` lines (the only thing python-chess's `analyse` returns), together
with the move carried by the terminating `bestmove` line (which `analyse`
consumes internally and never hands to `analyze_position`). -/
structure AnalyseExchange where
  trackedInfo : InfoDict
  bestmoveMove : String
deriving DecidableEq, Repr

/-- What `analyze_position` returns for a completed exchange: the formatting
of engine.py lines 112-117 applied to the tracked info dictionary; the
`bestmove` line's move is not available to it. -/
def analyze_result_of_exchange (e : AnalyseExchange) : AnalysisResult :=
  format_result e.trackedInfo

/-- Python `key in dict` for the association-list model of a dict. -/
def containsKey (c : List (String × ConfigValue)) (k : String) : Bool :=
  c.any (fun kv => kv.1 == k)

/-- Python `dict[k] = v`: overwrite in place when the key exists, append
otherwise (insertion order preserved, keys unique). -/
def dictSet (c : List (String × ConfigValue)) (k : String) (v : ConfigValue) :
    List (String × ConfigValue) :=
  if containsKey c k then c.map (fun kv => if kv.1 == k then (k, v) else kv)
  else c ++ [(k, v)]

/-- Python `dict.update(u)`: set each key of `u` in order. -/
def dictUpdate (c u : List (String × ConfigValue)) : List (String × ConfigValue) :=
  u.foldl (fun acc kv => dictSet acc kv.1 kv.2) c

/-- Python `dict.get(k)` on the association-list model. -/
def dictGet (c : List (String × ConfigValue)) (k : String) : Option ConfigValue :=
  (c.find? (fun kv => kv.1 == k)).map (fun kv => kv.2)

/-- The parts of the python-chess engine object the bridge reads:
`engine.options` (advertised option metadata) and `engine.id`
(identity strings). -/
structure EngineModel where
  options : List UciOption
  id : List (String × String)
deriving DecidableEq, Repr

/-- The mutable state of a `UCIEngine` bridge instance: `self.engine`
(None until started, None again after stop), `self._ready`, and
`self._current_option_values`. -/
structure BridgeState where
  engine : Option EngineModel
  ready : Bool
  cache : List (String × ConfigValue)
deriving DecidableEq, Repr

/-- A command the bridge sends to the engine process (through python-chess):
an `analyse` search, a `play` search, or a `configure` batch of `setoption`
writes. -/
inductive Cmd where
  | analyse (fen : String) (timeMs : Int)
  | play (timeMs : Int)
  | configure (opts : List (String × ConfigValue))
deriving DecidableEq, Repr

/-- The guard `not self.engine or not self._ready` shared by every protocol
operation of `UCIEngine` (a started engine object is truthy). -/
def notStarted (s : BridgeState) : Bool :=
  s.engine.isNone || !s.ready

/-- OptionMetadata as assembled by `get_available_options` (engine.py lines
237-247): `var` is `list(option.var) if option.var else None`, so an absent
or empty list collapses to `None`. -/
structure OptionMetadata where
  name : String
  type : String
  default : ConfigValue
  min : Option Int
  max : Option Int
  var : Option (List String)
deriving DecidableEq, Repr

/-- `UCIEngine.analyze_position` (engine.py lines 85-119): the not-ready
guard raises `RuntimeError("Engine not started")` before any board is built
or any search command sent; otherwise the `analyse` search runs and its info
dictionary is formatted. Returns the commands sent alongside the outcome. -/
def analyze_position (s : BridgeState) (fen : String) (timeMs : Int)
    (engineInfo : InfoDict) : List Cmd × Except String AnalysisResult :=
  if notStarted s then ([], .error "Engine not started")
  else ([.analyse fen timeMs], .ok (format_result engineInfo))

/-- `UCIEngine.get_best_move` (engine.py lines 146-181): guard first, then a
`play` search; the returned move string is `result.move.uci()` or `""`. -/
def get_best_move (s : BridgeState) (timeMs : Int) (engineMove : Option String) :
    List Cmd × Except String String :=
  if notStarted s then ([], .error "Engine not started")
  else ([.play timeMs],
    .ok (match engineMove with
         | some m => m
         | Option.none => ""))

/-- `UCIEngine.get_engine_id` (engine.py lines 210-222): guard, then a copy
of `self.engine.id`. No command is sent. -/
def get_engine_id (s : BridgeState) : List Cmd × Except String (List (String × String)) :=
  if notStarted s then ([], .error "Engine not started")
  else
    match s.engine with
    | some eng => ([], .ok eng.id)
    | Option.none => ([], .error "Engine not started")

/-- `UCIEngine.get_available_options` (engine.py lines 224-247): guard, then
the advertised options repackaged as `OptionMetadata`. No command is sent. -/
def get_available_options (s : BridgeState) :
    List Cmd × Except String (List (String × OptionMetadata)) :=
  if notStarted s then ([], .error "Engine not started")
  else
    match s.engine with
    | some eng =>
      ([], .ok (eng.options.map (fun o =>
        (o.name,
         { name := o.name, type := o.type, default := o.default,
           min := o.min, max := o.max,
           var := match o.var with
                  | some vs => if vs.isEmpty then Option.none else some vs
                  | Option.none => Option.none }))))
    | Option.none => ([], .error "Engine not started")

/-- `UCIEngine.get_current_option_values` (engine.py lines 249-259): a copy
of the cache. -/
def get_current_option_values (s : BridgeState) : List (String × ConfigValue) :=
  s.cache

/-- `UCIEngine.set_options` (engine.py lines 261-303): guard, per-key
classification, then — only when something was applied — one `configure`
batch followed by a cache update. Returns commands sent, and on success the
`(applied, errors)` pair with the updated state. -/
def set_options_run (s : BridgeState) (opts : List (String × ConfigValue)) :
    List Cmd × Except String
      (List (String × ConfigValue) × List (String × String) × BridgeState) :=
  if notStarted s then ([], .error "Engine not started")
  else
    match s.engine with
    | some eng =>
      let res := set_options_pure eng.options opts
      ((if res.1.isEmpty then [] else [.configure res.1]),
       .ok (res.1, res.2,
            { s with cache := if res.1.isEmpty then s.cache
                              else dictUpdate s.cache res.1 }))
    | Option.none => ([], .error "Engine not started")

/-- `UCIEngine.stop` (engine.py lines 72-83): when `self.engine` is set, a
`quit` is attempted (exceptions swallowed) and the `finally` block clears
`transport`, `engine` and `_ready`; when it is already `None`, nothing
happens at all. The boolean records whether a quit was attempted. -/
def stop (s : BridgeState) : BridgeState × Bool :=
  match s.engine with
  | some _ => ({ s with engine := Option.none, ready := false }, true)
  | Option.none => (s, false)

/-- `UCIEngine.start` (engine.py lines 35-70), with the outcome of
`chess.engine.popen_uci` (the OS spawn) passed in. On a spawn failure the
`except` branch finds `self.transport`/`self.engine` still unset, so the
state is untouched and `RuntimeError(f"Failed to start engine: {e}")` is
raised. On success the engine is stored, the constructor options supported
by the engine are configured and cached, and `_ready` is set. -/
def start (s : BridgeState) (initOptions : List (String × ConfigValue))
    (spawnResult : Except String EngineModel) : BridgeState × Except String Unit :=
  match spawnResult with
  | .error e => (s, .error ("Failed to start engine: " ++ e))
  | .ok eng =>
    let configurable := initOptions.filter (fun kv => containsKey
      (eng.options.map (fun o => (o.name, ConfigValue.none))) kv.1)
    ({ s with engine := some eng, ready := true,
              cache := if configurable.isEmpty then s.cache
                       else dictUpdate s.cache configurable },
     .ok ())

/-- `ChessEngineConfig.__init__` (config.py lines 26-55): require `path`,
expand the user home, default `name` to the basename, then fail with
`ConfigError` when the path is not a file or not executable. The OS
predicates and path helpers are passed in as functions. -/
def chessEngineConfig_init (expandUser basename : String → String)
    (isFile isExecutable : String → Bool)
    (path : Option String) (name : Option String)
    (options : List (String × ConfigValue)) :
    Except String (String × String × List (String × ConfigValue)) :=
  match path with
  | Option.none => .error "Engine configuration must include \x27path\x27"
  | some p =>
    let p2 := expandUser p
    let nm := match name with
              | some n => n
              | Option.none => basename p2
    if isFile p2 = false then
      .error ("Engine path does not exist: " ++ p2)
    else if isExecutable p2 = false then
      .error ("Engine is not executable: " ++ p2)
    else
      .ok (p2, nm, options)

/-- The `Hash` option of the spec's scenario (section 8):
`spin, min=1, max=33554432, default=16`. -/
def hashOpt : UciOption :=
  { name := "Hash", type := "spin", default := .int 16,
    min := some 1, max := some 33554432, var := Option.none }

/-- A ready bridge whose engine advertises exactly the `Hash` option, with
an empty value cache. -/
def hashReadyState : BridgeState :=
  { engine := some { options := [hashOpt], id := [("name", "TestEngine")] },
    ready := true, cache := [] }

/-- A concrete completed analysis exchange: the tracked info has principal
variation starting `e2e4` while the terminating `bestmove` line carries
`d2d4`. -/
def exExchange : AnalyseExchange :=
  { trackedInfo := { depth := some 12, score := some (.cp 35),
                     pv := some ["e2e4", "e7e5"] },
    bestmoveMove := "d2d4" }

/-- A spin option whose range contains both integer readings of a Python
boolean (0 and 1): `Contempt`, `spin, min=-100, max=100, default=0`. -/
def contemptOpt : UciOption :=
  { name := "Contempt", type := "spin", default := .int 0,
    min := some (-100), max := some 100, var := Option.none }

/-- A ready bridge whose engine advertises exactly the `Contempt` option,
with an empty value cache. -/
def contemptReadyState : BridgeState :=
  { engine := some { options := [contemptOpt], id := [("name", "TestEngine")] },
    ready := true, cache := [] }

theorem set_options_pure_nil (supported : List UciOption) :
    set_options_pure supported [] = ([], []) := rfl

theorem set_options_pure_cons_unsupported {supported : List UciOption}
    {n : String} {v : ConfigValue} {tl : List (String × ConfigValue)}
    (h : findOption supported n = Option.none) :
    set_options_pure supported ((n, v) :: tl) =
      ((set_options_pure supported tl).1,
       (n, "Option \x27" ++ n ++ "\x27 is not supported by this engine")
         :: (set_options_pure supported tl).2) := by
  simp [set_options_pure, h]

theorem set_options_pure_cons_invalid {supported : List UciOption}
    {n : String} {v : ConfigValue} {tl : List (String × ConfigValue)}
    {o : UciOption} {err : String}
    (h : findOption supported n = some o)
    (hv : validate_option_value o v = some err) :
    set_options_pure supported ((n, v) :: tl) =
      ((set_options_pure supported tl).1,
       (n, err) :: (set_options_pure supported tl).2) := by
  simp [set_options_pure, h, hv]

theorem set_options_pure_cons_valid {supported : List UciOption}
    {n : String} {v : ConfigValue} {tl : List (String × ConfigValue)}
    {o : UciOption}
    (h : findOption supported n = some o)
    (hv : validate_option_value o v = Option.none) :
    set_options_pure supported ((n, v) :: tl) =
      ((n, v) :: (set_options_pure supported tl).1,
       (set_options_pure supported tl).2) := by
  simp [set_options_pure, h, hv]

theorem mem_keys_of_mem_applied {supported : List UciOption}
    {opts : List (String × ConfigValue)} {k : String}
    (h : k ∈ (set_options_pure supported opts).1.map Prod.fst) :
    k ∈ opts.map Prod.fst := by
  induction opts with
  | nil => simp [set_options_pure_nil] at h
  | cons hd tl ih =>
    obtain ⟨n, v⟩ := hd
    cases hfo : findOption supported n with
    | none =>
      rw [set_options_pure_cons_unsupported hfo] at h
      exact List.mem_cons.mpr (Or.inr (ih h))
    | some o =>
      cases hv : validate_option_value o v with
      | some err =>
        rw [set_options_pure_cons_invalid hfo hv] at h
        exact List.mem_cons.mpr (Or.inr (ih h))
      | none =>
        rw [set_options_pure_cons_valid hfo hv] at h
        simp only [List.map_cons, List.mem_cons] at h ⊢
        exact h.imp id ih

theorem mem_keys_of_mem_errors {supported : List UciOption}
    {opts : List (String × ConfigValue)} {k : String}
    (h : k ∈ (set_options_pure supported opts).2.map Prod.fst) :
    k ∈ opts.map Prod.fst := by
  induction opts with
  | nil => simp [set_options_pure_nil] at h
  | cons hd tl ih =>
    obtain ⟨n, v⟩ := hd
    cases hfo : findOption supported n with
    | none =>
      rw [set_options_pure_cons_unsupported hfo] at h
      simp only [List.map_cons, List.mem_cons] at h ⊢
      exact h.imp id ih
    | some o =>
      cases hv : validate_option_value o v with
      | some err =>
        rw [set_options_pure_cons_invalid hfo hv] at h
        simp only [List.map_cons, List.mem_cons] at h ⊢
        exact h.imp id ih
      | none =>
        rw [set_options_pure_cons_valid hfo hv] at h
        exact List.mem_cons.mpr (Or.inr (ih h))

theorem mem_applied_or_errors {supported : List UciOption}
    {opts : List (String × ConfigValue)} {k : String}
    (h : k ∈ opts.map Prod.fst) :
    k ∈ (set_options_pure supported opts).1.map Prod.fst ∨
      k ∈ (set_options_pure supported opts).2.map Prod.fst := by
  induction opts with
  | nil => simp at h
  | cons hd tl ih =>
    obtain ⟨n, v⟩ := hd
    simp only [List.map_cons, List.mem_cons] at h
    cases hfo : findOption supported n with
    | none =>
      rw [set_options_pure_cons_unsupported hfo]
      rcases h with h | h
      · exact Or.inr (List.mem_cons.mpr (Or.inl h))
      · exact (ih h).imp id (fun hh => List.mem_cons.mpr (Or.inr hh))
    | some o =>
      cases hv : validate_option_value o v with
      | some err =>
        rw [set_options_pure_cons_invalid hfo hv]
        rcases h with h | h
        · exact Or.inr (List.mem_cons.mpr (Or.inl h))
        · exact (ih h).imp id (fun hh => List.mem_cons.mpr (Or.inr hh))
      | none =>
        rw [set_options_pure_cons_valid hfo hv]
        rcases h with h | h
        · exact Or.inl (List.mem_cons.mpr (Or.inl h))
        · exact (ih h).imp (fun hh => List.mem_cons.mpr (Or.inr hh)) id

theorem applied_errors_disjoint {supported : List UciOption}
    {opts : List (String × ConfigValue)} {k : String}
    (hnd : (opts.map Prod.fst).Nodup)
    (ha : k ∈ (set_options_pure supported opts).1.map Prod.fst)
    (he : k ∈ (set_options_pure supported opts).2.map Prod.fst) : False := by
  induction opts with
  | nil => simp [set_options_pure_nil] at ha
  | cons hd tl ih =>
    obtain ⟨n, v⟩ := hd
    simp only [List.map_cons, List.nodup_cons] at hnd
    cases hfo : findOption supported n with
    | none =>
      rw [set_options_pure_cons_unsupported hfo] at ha he
      simp only [List.map_cons, List.mem_cons] at he
      rcases he with he | he
      · exact hnd.1 (he ▸ mem_keys_of_mem_applied ha)
      · exact ih hnd.2 ha he
    | some o =>
      cases hv : validate_option_value o v with
      | some err =>
        rw [set_options_pure_cons_invalid hfo hv] at ha he
        simp only [List.map_cons, List.mem_cons] at he
        rcases he with he | he
        · exact hnd.1 (he ▸ mem_keys_of_mem_applied ha)
        · exact ih hnd.2 ha he
      | none =>
        rw [set_options_pure_cons_valid hfo hv] at ha he
        simp only [List.map_cons, List.mem_cons] at ha
        rcases ha with ha | ha
        · exact hnd.1 (ha ▸ mem_keys_of_mem_errors he)
        · exact ih hnd.2 ha he

/-- C1: for every input mapping (keys distinct, as in a Python dict), the
`applied` and `errors` mappings returned by `set_options` partition the
input keys: a key is an input key iff it is in exactly one of the two, and
never in both. -/
theorem set_options_partitions_keys (supported : List UciOption)
    (opts : List (String × ConfigValue))
    (hnd : (opts.map Prod.fst).Nodup) (k : String) :
    (k ∈ opts.map Prod.fst ↔
      (k ∈ (set_options_pure supported opts).1.map Prod.fst ∨
       k ∈ (set_options_pure supported opts).2.map Prod.fst)) ∧
    ¬(k ∈ (set_options_pure supported opts).1.map Prod.fst ∧
      k ∈ (set_options_pure supported opts).2.map Prod.fst) := by
  refine ⟨⟨fun h => mem_applied_or_errors h, fun h => ?_⟩, fun h => applied_errors_disjoint hnd h.1 h.2⟩
  rcases h with h | h
  · exact mem_keys_of_mem_applied h
  · exact mem_keys_of_mem_errors h

/-- Witness for C1 at a concrete input: the spec scenario map
`{"Hash": 64, "Nonexistent": 1}` against the `Hash`-only engine. -/
theorem set_options_partitions_keys_witness :
    ((([("Hash", ConfigValue.int 64), ("Nonexistent", ConfigValue.int 1)].map Prod.fst).Nodup) ∧
     ("Hash" ∈ (set_options_pure [hashOpt]
        [("Hash", ConfigValue.int 64), ("Nonexistent", ConfigValue.int 1)]).1.map Prod.fst ∨
      "Hash" ∈ (set_options_pure [hashOpt]
        [("Hash", ConfigValue.int 64), ("Nonexistent", ConfigValue.int 1)]).2.map Prod.fst)) := by
  refine ⟨by decide, ?_⟩
  exact (set_options_partitions_keys [hashOpt]
    [("Hash", ConfigValue.int 64), ("Nonexistent", ConfigValue.int 1)]
    (by decide) "Hash").1.mp (by decide)

theorem find_map_set (k : String) (v : ConfigValue) (c : List (String × ConfigValue))
    (h : containsKey c k = true) :
    (c.map (fun kv => if kv.1 == k then (k, v) else kv)).find? (fun kv => kv.1 == k)
      = some (k, v) := by
  induction c with
  | nil => simp [containsKey] at h
  | cons kv rest ih =>
    cases hk : (kv.1 == k) with
    | true => simp [List.find?, hk]
    | false =>
      have hrest : containsKey rest k = true := by
        simp only [containsKey, List.any_cons, hk, Bool.false_or] at h
        exact h
      simp only [List.map_cons, hk, Bool.false_eq_true, if_false, List.find?, hk]
      exact ih hrest

theorem find_append_singleton (k : String) (v : ConfigValue) (c : List (String × ConfigValue))
    (h : containsKey c k = false) :
    (c ++ [(k, v)]).find? (fun kv => kv.1 == k) = some (k, v) := by
  induction c with
  | nil => simp [List.find?]
  | cons kv rest ih =>
    have hk : (kv.1 == k) = false := by
      simp only [containsKey, List.any_cons, Bool.or_eq_false_iff] at h
      exact h.1
    have hrest : containsKey rest k = false := by
      simp only [containsKey, List.any_cons, Bool.or_eq_false_iff] at h
      exact h.2
    simp only [List.cons_append, List.find?, hk]
    exact ih hrest

theorem dictGet_dictSet_self (c : List (String × ConfigValue)) (k : String) (v : ConfigValue) :
    dictGet (dictSet c k v) k = some v := by
  by_cases hc : containsKey c k
  · unfold dictSet dictGet
    rw [if_pos hc, find_map_set k v c hc]
    rfl
  · have hcf : containsKey c k = false := by
      cases hcc : containsKey c k
      · rfl
      · exact absurd hcc hc
    unfold dictSet dictGet
    rw [if_neg hc, find_append_singleton k v c hcf]
    rfl

theorem dictGet_map_set_ne (k : String) (v : ConfigValue) (k' : String) (h : k ≠ k')
    (c : List (String × ConfigValue)) :
    dictGet (c.map (fun kv => if kv.1 == k then (k, v) else kv)) k' = dictGet c k' := by
  induction c with
  | nil => rfl
  | cons kv rest ih =>
    have h1 : (k == k') = false := beq_eq_false_iff_ne.mpr h
    cases hk : (kv.1 == k) with
    | true =>
      have hkk : kv.1 = k := eq_of_beq hk
      have h2 : (kv.1 == k') = false := by rw [hkk]; exact h1
      simp only [List.map_cons, hk, if_true, dictGet, List.find?, h1, h2]
      exact ih
    | false =>
      simp only [List.map_cons, hk, Bool.false_eq_true, if_false, dictGet, List.find?]
      cases hk' : (kv.1 == k') with
      | true => rfl
      | false => exact ih

theorem dictGet_append_singleton_ne (k : String) (v : ConfigValue) (k' : String) (h : k ≠ k')
    (c : List (String × ConfigValue)) :
    dictGet (c ++ [(k, v)]) k' = dictGet c k' := by
  induction c with
  | nil =>
    simp only [List.nil_append, dictGet, List.find?, beq_eq_false_iff_ne.mpr h]
  | cons kv rest ih =>
    simp only [List.cons_append, dictGet, List.find?]
    cases hk' : (kv.1 == k') with
    | true => rfl
    | false => exact ih

theorem dictGet_dictSet_ne (c : List (String × ConfigValue)) (k : String) (v : ConfigValue)
    (k' : String) (h : k ≠ k') : dictGet (dictSet c k v) k' = dictGet c k' := by
  by_cases hc : containsKey c k
  · unfold dictSet
    rw [if_pos hc]
    exact dictGet_map_set_ne k v k' h c
  · unfold dictSet
    rw [if_neg hc]
    exact dictGet_append_singleton_ne k v k' h c

theorem dictGet_dictUpdate_not_mem (u : List (String × ConfigValue)) (k : String)
    (h : k ∉ u.map Prod.fst) (c : List (String × ConfigValue)) :
    dictGet (dictUpdate c u) k = dictGet c k := by
  induction u generalizing c with
  | nil => rfl
  | cons kv rest ih =>
    simp only [List.map_cons, List.mem_cons, not_or] at h
    have step : dictUpdate c (kv :: rest) = dictUpdate (dictSet c kv.1 kv.2) rest := rfl
    rw [step, ih h.2, dictGet_dictSet_ne _ _ _ _ (fun hh => h.1 hh.symm)]

theorem dictGet_dictUpdate_mem (u : List (String × ConfigValue)) (k : String) (v : ConfigValue)
    (hnd : (u.map Prod.fst).Nodup) (hmem : (k, v) ∈ u) (c : List (String × ConfigValue)) :
    dictGet (dictUpdate c u) k = some v := by
  induction u generalizing c with
  | nil => simp at hmem
  | cons kv rest ih =>
    simp only [List.map_cons, List.nodup_cons] at hnd
    have step : dictUpdate c (kv :: rest) = dictUpdate (dictSet c kv.1 kv.2) rest := rfl
    rcases List.mem_cons.mp hmem with hh | hh
    · subst hh
      rw [step, dictGet_dictUpdate_not_mem rest k (by simpa using hnd.1)]
      exact dictGet_dictSet_self c k v
    · rw [step]
      exact ih hnd.2 hh _

theorem applied_keys_nodup {supported : List UciOption}
    {opts : List (String × ConfigValue)}
    (hnd : (opts.map Prod.fst).Nodup) :
    ((set_options_pure supported opts).1.map Prod.fst).Nodup := by
  induction opts with
  | nil => simp [set_options_pure_nil]
  | cons hd tl ih =>
    obtain ⟨n, v⟩ := hd
    simp only [List.map_cons, List.nodup_cons] at hnd
    cases hfo : findOption supported n with
    | none => rw [set_options_pure_cons_unsupported hfo]; exact ih hnd.2
    | some o =>
      cases hv : validate_option_value o v with
      | some err => rw [set_options_pure_cons_invalid hfo hv]; exact ih hnd.2
      | none =>
        rw [set_options_pure_cons_valid hfo hv]
        simp only [List.map_cons, List.nodup_cons]
        exact ⟨fun hmem => hnd.1 (mem_keys_of_mem_applied hmem), ih hnd.2⟩

theorem valid_entry_mem_applied {supported : List UciOption}
    {opts : List (String × ConfigValue)} {name : String} {value : ConfigValue}
    {o : UciOption}
    (hmem : (name, value) ∈ opts)
    (ho : findOption supported name = some o)
    (hv : validate_option_value o value = Option.none) :
    (name, value) ∈ (set_options_pure supported opts).1 := by
  induction opts with
  | nil => simp at hmem
  | cons hd tl ih =>
    obtain ⟨n, v⟩ := hd
    rcases List.mem_cons.mp hmem with hh | hh
    · obtain ⟨h1, h2⟩ := Prod.mk.injEq .. ▸ hh
      subst h1
      subst h2
      rw [set_options_pure_cons_valid ho hv]
      exact List.mem_cons_self _ _
    · cases hfo : findOption supported n with
      | none =>
        rw [set_options_pure_cons_unsupported hfo]
        exact ih hh
      | some o2 =>
        cases hv2 : validate_option_value o2 v with
        | some err =>
          rw [set_options_pure_cons_invalid hfo hv2]
          exact ih hh
        | none =>
          rw [set_options_pure_cons_valid hfo hv2]
          exact List.mem_cons.mpr (Or.inr (ih hh))

theorem unsupported_entry_mem_errors {supported : List UciOption}
    {opts : List (String × ConfigValue)} {name : String} {value : ConfigValue}
    (hmem : (name, value) ∈ opts)
    (ho : findOption supported name = Option.none) :
    (name, "Option \x27" ++ name ++ "\x27 is not supported by this engine")
      ∈ (set_options_pure supported opts).2 := by
  induction opts with
  | nil => simp at hmem
  | cons hd tl ih =>
    obtain ⟨n, v⟩ := hd
    rcases List.mem_cons.mp hmem with hh | hh
    · obtain ⟨h1, h2⟩ := Prod.mk.injEq .. ▸ hh
      subst h1
      rw [set_options_pure_cons_unsupported ho]
      exact List.mem_cons_self _ _
    · cases hfo : findOption supported n with
      | none =>
        rw [set_options_pure_cons_unsupported hfo]
        exact List.mem_cons.mpr (Or.inr (ih hh))
      | some o2 =>
        cases hv2 : validate_option_value o2 v with
        | some err =>
          rw [set_options_pure_cons_invalid hfo hv2]
          exact List.mem_cons.mpr (Or.inr (ih hh))
        | none =>
          rw [set_options_pure_cons_valid hfo hv2]
          exact ih hh

theorem invalid_entry_mem_errors {supported : List UciOption}
    {opts : List (String × ConfigValue)} {name : String} {value : ConfigValue}
    {o : UciOption} {err : String}
    (hmem : (name, value) ∈ opts)
    (ho : findOption supported name = some o)
    (hv : validate_option_value o value = some err) :
    (name, err) ∈ (set_options_pure supported opts).2 := by
  induction opts with
  | nil => simp at hmem
  | cons hd tl ih =>
    obtain ⟨n, v⟩ := hd
    rcases List.mem_cons.mp hmem with hh | hh
    · obtain ⟨h1, h2⟩ := Prod.mk.injEq .. ▸ hh
      subst h1
      subst h2
      rw [set_options_pure_cons_invalid ho hv]
      exact List.mem_cons_self _ _
    · cases hfo : findOption supported n with
      | none =>
        rw [set_options_pure_cons_unsupported hfo]
        exact List.mem_cons.mpr (Or.inr (ih hh))
      | some o2 =>
        cases hv2 : validate_option_value o2 v with
        | some err2 =>
          rw [set_options_pure_cons_invalid hfo hv2]
          exact List.mem_cons.mpr (Or.inr (ih hh))
        | none =>
          rw [set_options_pure_cons_valid hfo hv2]
          exact ih hh

/-- C4: per-key independence of `set_options`: a supported name with a valid
value is always applied — membership in the input alone suffices, whatever
other (possibly invalid or unsupported) entries the map contains — and the
whole applied batch is sent to the engine as one `configure` command, while
each unsupported or invalid sibling key lands in `errors` with its own
message. -/
theorem set_options_per_key_independence (s : BridgeState) (eng : EngineModel)
    (opts : List (String × ConfigValue)) (name : String) (value : ConfigValue)
    (o : UciOption)
    (hs : s.engine = some eng) (hr : s.ready = true)
    (hmem : (name, value) ∈ opts)
    (ho : findOption eng.options name = some o)
    (hv : validate_option_value o value = Option.none) :
    (name, value) ∈ (set_options_pure eng.options opts).1 ∧
    (set_options_run s opts).1 = [Cmd.configure (set_options_pure eng.options opts).1] ∧
    (∀ n2 v2, (n2, v2) ∈ opts → findOption eng.options n2 = Option.none →
      (n2, "Option \x27" ++ n2 ++ "\x27 is not supported by this engine")
        ∈ (set_options_pure eng.options opts).2) ∧
    (∀ n2 v2 o2 e2, (n2, v2) ∈ opts → findOption eng.options n2 = some o2 →
      validate_option_value o2 v2 = some e2 →
      (n2, e2) ∈ (set_options_pure eng.options opts).2) := by
  have happ := valid_entry_mem_applied hmem ho hv
  have hns : notStarted s = false := by simp [notStarted, hs, hr]
  refine ⟨happ, ?_, fun n2 v2 h1 h2 => unsupported_entry_mem_errors h1 h2,
    fun n2 v2 o2 e2 h1 h2 h3 => invalid_entry_mem_errors h1 h2 h3⟩
  have hne : (set_options_pure eng.options opts).1.isEmpty = false := by
    cases hq : (set_options_pure eng.options opts).1 with
    | nil => rw [hq] at happ; simp at happ
    | cons a l => rfl
  simp [set_options_run, hns, hs, hne]

/-- Witness for C4: `{"Hash": 64, "Bogus": 1}` against the `Hash`-only
engine — `Hash` is applied and sent even though `Bogus` errors. -/
theorem set_options_per_key_independence_witness :
    ("Hash", ConfigValue.int 64) ∈ (set_options_pure [hashOpt]
      [("Hash", ConfigValue.int 64), ("Bogus", ConfigValue.int 1)]).1 :=
  (set_options_per_key_independence hashReadyState
    { options := [hashOpt], id := [("name", "TestEngine")] }
    [("Hash", ConfigValue.int 64), ("Bogus", ConfigValue.int 1)]
    "Hash" (ConfigValue.int 64) hashOpt rfl rfl (by decide) (by decide) (by decide)).1

/-- C8: after a successful `set_options`, every applied pair is readable
back from `get_current_option_values` on the returned state, while keys
that were rejected keep whatever cache entry they had before. -/
theorem set_options_records_applied_in_cache (s : BridgeState) (eng : EngineModel)
    (opts applied : List (String × ConfigValue)) (errors : List (String × String))
    (hs : s.engine = some eng) (hr : s.ready = true)
    (hnd : (opts.map Prod.fst).Nodup)
    (hres : set_options_pure eng.options opts = (applied, errors)) :
    ∃ s2 : BridgeState,
      (set_options_run s opts).2 = Except.ok (applied, errors, s2) ∧
      (∀ k v, (k, v) ∈ applied →
        dictGet (get_current_option_values s2) k = some v) ∧
      (∀ k, k ∈ errors.map Prod.fst →
        dictGet (get_current_option_values s2) k
          = dictGet (get_current_option_values s) k) := by
  have hns : notStarted s = false := by simp [notStarted, hs, hr]
  refine ⟨{ s with cache := if applied.isEmpty then s.cache
                            else dictUpdate s.cache applied }, ?_, ?_, ?_⟩
  · simp [set_options_run, hns, hs, hres]
  · intro k v hkv
    have hnd2 : (applied.map Prod.fst).Nodup := by
      have h := @applied_keys_nodup eng.options opts hnd
      rwa [hres] at h
    have hne : applied.isEmpty = false := by
      cases applied with
      | nil => simp at hkv
      | cons a l => rfl
    simp only [get_current_option_values, hne, Bool.false_eq_true, if_false]
    exact dictGet_dictUpdate_mem applied k v hnd2 hkv s.cache
  · intro k hk
    cases hne : applied.isEmpty with
    | true => simp [get_current_option_values, hne]
    | false =>
      have hnotmem : k ∉ applied.map Prod.fst := by
        intro hmem
        exact applied_errors_disjoint hnd (by rw [hres]; exact hmem)
          (by rw [hres]; exact hk)
      simp only [get_current_option_values, hne, Bool.false_eq_true, if_false]
      exact dictGet_dictUpdate_not_mem applied k hnotmem s.cache

/-- Witness for C8: the spec scenario `setOptions({"Hash": 64})` on the
ready `Hash` engine — the returned state's cache reads back 64. -/
theorem set_options_records_applied_in_cache_witness :
    ∃ s2 : BridgeState,
      (set_options_run hashReadyState [("Hash", ConfigValue.int 64)]).2
        = Except.ok ([("Hash", ConfigValue.int 64)], [], s2) ∧
      (∀ k v, (k, v) ∈ [("Hash", ConfigValue.int 64)] →
        dictGet (get_current_option_values s2) k = some v) ∧
      (∀ k, k ∈ ([] : List (String × String)).map Prod.fst →
        dictGet (get_current_option_values s2) k
          = dictGet (get_current_option_values hashReadyState) k) :=
  set_options_records_applied_in_cache hashReadyState
    { options := [hashOpt], id := [("name", "TestEngine")] }
    [("Hash", ConfigValue.int 64)] [("Hash", ConfigValue.int 64)] []
    rfl rfl (by decide) (by decide)

/-- C3: spin validation against declared bounds `[mn, mx]`: non-integer
values are rejected with an "Expected integer value" message, integers
below `mn` with a "below minimum" message, integers above `mx` with an
"above maximum" message; a rejected key is returned in `errors` (no
exception), and an in-range integer validates and is applied. -/
theorem spin_option_validation_bounds (o : UciOption) (mn mx : Int)
    (ht : o.type = "spin") (hmn : o.min = some mn) (hmx : o.max = some mx) :
    (∀ s : String, validate_option_value o (.str s)
       = some "Expected integer value for spin option, got str") ∧
    (validate_option_value o ConfigValue.none
       = some "Expected integer value for spin option, got NoneType") ∧
    (∀ n : Int, n < mn → validate_option_value o (.int n)
       = some ("Value " ++ toString n ++ " is below minimum " ++ toString mn)) ∧
    (∀ n : Int, mn ≤ n → mx < n → validate_option_value o (.int n)
       = some ("Value " ++ toString n ++ " is above maximum " ++ toString mx)) ∧
    (∀ n : Int, mn ≤ n → n ≤ mx → validate_option_value o (.int n) = Option.none) ∧
    (∀ n : Int, ∀ err : String, validate_option_value o (.int n) = some err →
       set_options_pure [o] [(o.name, .int n)] = ([], [(o.name, err)])) ∧
    (∀ n : Int, mn ≤ n → n ≤ mx →
       set_options_pure [o] [(o.name, .int n)]
         = ([(o.name, ConfigValue.int n)], [])) := by
  have hfo : findOption [o] o.name = some o := by simp [findOption]
  have hok : ∀ n : Int, mn ≤ n → n ≤ mx → validate_option_value o (.int n) = Option.none := by
    intro n hge hle
    simp [validate_option_value, ht, hmn, hmx, isInstInt, pyIntVal,
      not_lt.mpr hge, not_lt.mpr hle]
  refine ⟨?_, ?_, ?_, ?_, hok, ?_, ?_⟩
  · intro str
    simp [validate_option_value, ht, isInstInt, pyTypeName]
  · simp [validate_option_value, ht, isInstInt, pyTypeName]
  · intro n hlt
    simp [validate_option_value, ht, hmn, hmx, isInstInt, pyIntVal, pyStr, hlt]
  · intro n hge hgt
    simp [validate_option_value, ht, hmn, hmx, isInstInt, pyIntVal, pyStr,
      not_lt.mpr hge, hgt]
  · intro n err herr
    rw [set_options_pure_cons_invalid hfo herr]
    simp [set_options_pure_nil]
  · intro n hge hle
    rw [set_options_pure_cons_valid hfo (hok n hge hle)]
    simp [set_options_pure_nil]

/-- Witness for C3: the spec scenario `setOptions({"Hash": 33554432 + 1000000})`
is rejected with the "above maximum" message. -/
theorem spin_option_validation_bounds_witness :
    validate_option_value hashOpt (.int 34554432)
      = some ("Value " ++ toString (34554432 : Int) ++ " is above maximum "
          ++ toString (33554432 : Int)) :=
  (spin_option_validation_bounds hashOpt 1 33554432 rfl rfl rfl).2.2.2.1
    34554432 (by decide) (by decide)

theorem validate_spin_int_in_range (o : UciOption) (mn mx : Int) (v : ConfigValue)
    (ht : o.type = "spin") (hmn : o.min = some mn) (hmx : o.max = some mx)
    (hint : isInstInt v = true)
    (h1 : mn ≤ pyIntVal v) (h2 : pyIntVal v ≤ mx) :
    validate_option_value o v = Option.none := by
  simp [validate_option_value, ht, hmn, hmx, hint, not_lt.mpr h1, not_lt.mpr h2]

/-- C10: because Python's `bool` is a subclass of `int`, every boolean value
— `True` or `False` — passes the `isinstance(value, int)` test of the spin
branch and is compared against the declared `[min, max]` bounds as its
integer reading, 1 for `True` and 0 for `False`; a boolean whose reading is
in range validates, is placed in `applied` whatever else the input map
contains, and is sent to the engine in the `configure` batch. -/
theorem spin_option_accepts_bool (s : BridgeState) (eng : EngineModel)
    (o : UciOption) (mn mx : Int) (name : String)
    (hs : s.engine = some eng) (hr : s.ready = true)
    (hfo : findOption eng.options name = some o)
    (ht : o.type = "spin") (hmn : o.min = some mn) (hmx : o.max = some mx) :
    (∀ b : Bool, isInstInt (ConfigValue.bool b) = true) ∧
    pyIntVal (ConfigValue.bool true) = 1 ∧
    pyIntVal (ConfigValue.bool false) = 0 ∧
    (∀ b : Bool, mn ≤ pyIntVal (ConfigValue.bool b) →
      pyIntVal (ConfigValue.bool b) ≤ mx →
      validate_option_value o (ConfigValue.bool b) = Option.none) ∧
    (∀ (b : Bool) (opts : List (String × ConfigValue)),
      (name, ConfigValue.bool b) ∈ opts →
      mn ≤ pyIntVal (ConfigValue.bool b) → pyIntVal (ConfigValue.bool b) ≤ mx →
      (name, ConfigValue.bool b) ∈ (set_options_pure eng.options opts).1 ∧
      (set_options_run s opts).1
        = [Cmd.configure (set_options_pure eng.options opts).1]) := by
  have hval : ∀ b : Bool, mn ≤ pyIntVal (ConfigValue.bool b) →
      pyIntVal (ConfigValue.bool b) ≤ mx →
      validate_option_value o (ConfigValue.bool b) = Option.none := by
    intro b h1 h2
    exact validate_spin_int_in_range o mn mx _ ht hmn hmx (by cases b <;> rfl) h1 h2
  refine ⟨fun b => by cases b <;> rfl, rfl, rfl, hval, ?_⟩
  intro b opts hmem h1 h2
  have happ := valid_entry_mem_applied hmem hfo (hval b h1 h2)
  have hns : notStarted s = false := by simp [notStarted, hs, hr]
  have hne : (set_options_pure eng.options opts).1.isEmpty = false := by
    cases hq : (set_options_pure eng.options opts).1 with
    | nil => rw [hq] at happ; simp at happ
    | cons a l => rfl
  exact ⟨happ, by simp [set_options_run, hns, hs, hne]⟩

/-- Witness for C10: on the ready `Contempt` engine (`spin, min=-100,
max=100`), `True` and `False` both validate, and `{"Contempt": False}` is
applied (as the boolean it is) and sent in the `configure` batch. -/
theorem spin_option_accepts_bool_witness :
    validate_option_value contemptOpt (ConfigValue.bool true) = Option.none ∧
    validate_option_value contemptOpt (ConfigValue.bool false) = Option.none ∧
    ("Contempt", ConfigValue.bool false) ∈
      (set_options_pure [contemptOpt] [("Contempt", ConfigValue.bool false)]).1 ∧
    (set_options_run contemptReadyState [("Contempt", ConfigValue.bool false)]).1
      = [Cmd.configure (set_options_pure [contemptOpt]
          [("Contempt", ConfigValue.bool false)]).1] := by
  have h := spin_option_accepts_bool contemptReadyState
    { options := [contemptOpt], id := [("name", "TestEngine")] }
    contemptOpt (-100) 100 "Contempt" rfl rfl (by decide) rfl rfl rfl
  exact ⟨h.2.2.2.1 true (by decide) (by decide),
    h.2.2.2.1 false (by decide) (by decide),
    (h.2.2.2.2 false [("Contempt", ConfigValue.bool false)]
      (by decide) (by decide) (by decide)).1,
    (h.2.2.2.2 false [("Contempt", ConfigValue.bool false)]
      (by decide) (by decide) (by decide)).2⟩

/-- C5: every protocol operation — analyze, best-move, set-options,
engine-id, available-options — fails with the not-ready error
(`RuntimeError("Engine not started")`, the code's realization of
`EngineNotReadyError`) and sends no command whenever the bridge has no
engine object or is not ready. -/
theorem protocol_ops_require_ready (s : BridgeState)
    (h : s.engine = Option.none ∨ s.ready = false)
    (fen : String) (t : Int) (info : InfoDict) (mv : Option String)
    (opts : List (String × ConfigValue)) :
    analyze_position s fen t info = ([], .error "Engine not started") ∧
    get_best_move s t mv = ([], .error "Engine not started") ∧
    set_options_run s opts = ([], .error "Engine not started") ∧
    get_engine_id s = ([], .error "Engine not started") ∧
    get_available_options s = ([], .error "Engine not started") := by
  have hns : notStarted s = true := by
    rcases h with h | h
    · simp [notStarted, h]
    · simp [notStarted, h]
  exact ⟨by simp [analyze_position, hns], by simp [get_best_move, hns],
    by simp [set_options_run, hns], by simp [get_engine_id, hns],
    by simp [get_available_options, hns]⟩

/-- Witness for C5: a never-started bridge rejects `analyze`. -/
theorem protocol_ops_require_ready_witness :
    analyze_position { engine := Option.none, ready := false, cache := [] }
        "rnbqkbnr/pppppppp/8/8/8/8/PPPPPPPP/RNBQKBNR w KQkq - 0 1" 1000
        { depth := Option.none, score := Option.none, pv := Option.none }
      = ([], .error "Engine not started") :=
  (protocol_ops_require_ready
    { engine := Option.none, ready := false, cache := [] } (Or.inl rfl)
    "rnbqkbnr/pppppppp/8/8/8/8/PPPPPPPP/RNBQKBNR w KQkq - 0 1" 1000
    { depth := Option.none, score := Option.none, pv := Option.none }
    Option.none []).1

/-- C6: the `score` field of an analysis result is exactly
`_format_score` of the observed score: the centipawn value divided by 100
for a `cp` score, the string marker `"mate<N>"` for a mate score, and
`None` when no score was observed. -/
theorem analyze_score_formatting :
    (∀ info : InfoDict, (format_result info).score = format_score info.score) ∧
    (∀ v : Int, format_score (some (.cp v)) = .num ((v : Rat) / 100)) ∧
    (∀ n : Int, format_score (some (.mate n)) = .strVal ("mate" ++ toString n)) ∧
    format_score Option.none = .noneVal :=
  ⟨fun _ => rfl, fun _ => rfl, fun _ => rfl, rfl⟩

/-- C7: `stop` clears the engine handle and the ready flag, and a second
`stop` on the resulting state is a no-op that attempts no further quit
(the boolean component records whether a quit was attempted). The
hypothesis is the reachable-state invariant that a bridge without an
engine object is never marked ready. -/
theorem stop_idempotent_and_clears (s : BridgeState)
    (hinv : s.engine = Option.none → s.ready = false) :
    (stop s).1.engine = Option.none ∧ (stop s).1.ready = false ∧
    stop (stop s).1 = ((stop s).1, false) := by
  cases hse : s.engine with
  | none =>
    have hr := hinv hse
    simp [stop, hse, hr]
  | some eng => simp [stop, hse]

/-- Witness for C7: stopping a ready bridge twice. -/
theorem stop_idempotent_and_clears_witness :
    (stop hashReadyState).1.engine = Option.none ∧
    (stop hashReadyState).1.ready = false ∧
    stop (stop hashReadyState).1 = ((stop hashReadyState).1, false) :=
  stop_idempotent_and_clears hashReadyState (fun h => nomatch h)

/-- C9: configuration construction fails with `ConfigError` when the engine
path is not a file or not executable, and a failed spawn leaves the bridge
with no engine object and not ready while raising
`RuntimeError("Failed to start engine: ...")` (the code's `SpawnError`). -/
theorem start_spawn_failure_no_process (s : BridgeState)
    (hs : s.engine = Option.none) (hr : s.ready = false)
    (initOptions : List (String × ConfigValue)) (e : String)
    (expandUser basename : String → String) (isFile isExecutable : String → Bool)
    (p : String) (name : Option String) (options : List (String × ConfigValue)) :
    (isFile (expandUser p) = false →
      chessEngineConfig_init expandUser basename isFile isExecutable
          (some p) name options
        = .error ("Engine path does not exist: " ++ expandUser p)) ∧
    (isFile (expandUser p) = true → isExecutable (expandUser p) = false →
      chessEngineConfig_init expandUser basename isFile isExecutable
          (some p) name options
        = .error ("Engine is not executable: " ++ expandUser p)) ∧
    start s initOptions (.error e)
      = (s, .error ("Failed to start engine: " ++ e)) ∧
    (start s initOptions (.error e)).1.engine = Option.none ∧
    (start s initOptions (.error e)).1.ready = false := by
  refine ⟨fun hf => ?_, fun hf hx => ?_, rfl, ?_, ?_⟩
  · simp [chessEngineConfig_init, hf]
  · simp [chessEngineConfig_init, hf, hx]
  · simp [start, hs]
  · simp [start, hr]

/-- Witness for C9: a fresh bridge whose spawn fails. -/
theorem start_spawn_failure_no_process_witness :
    start { engine := Option.none, ready := false, cache := [] } []
        (.error "spawn failed")
      = ({ engine := Option.none, ready := false, cache := [] },
         .error ("Failed to start engine: " ++ "spawn failed")) :=
  (start_spawn_failure_no_process
    { engine := Option.none, ready := false, cache := [] } rfl rfl []
    "spawn failed" id id (fun _ => false) (fun _ => false)
    "/bad/path" Option.none []).2.2.1

/-- C2 counterexample: in the concrete exchange `exExchange` the tracked
principal variation starts with `e2e4` while the terminating `bestmove`
line carries `d2d4`; the result's best-move field is the tracked `e2e4`,
not the `bestmove` line's move — so the `bestmove` line does not set
(let alone override) the best-move field. -/
theorem analyze_bestmove_line_not_reflected :
    (analyze_result_of_exchange exExchange).best_move = some "e2e4" ∧
    exExchange.bestmoveMove = "d2d4" ∧
    (analyze_result_of_exchange exExchange).best_move
      ≠ some exExchange.bestmoveMove := by
  refine ⟨rfl, rfl, ?_⟩
  intro h
  simp [analyze_result_of_exchange, format_result, exExchange] at h

/-- C2 as amended: a `bestmove` line ends the analysis, but the returned
best-move field is the first move of the tracked principal variation
(absent when no pv was seen); the result is entirely independent of the
move the `bestmove` line carried. -/
theorem analyze_best_move_from_tracked_pv (info : InfoDict) (b b2 : String) :
    (analyze_result_of_exchange { trackedInfo := info, bestmoveMove := b }).best_move
      = (info.pv.getD []).head? ∧
    analyze_result_of_exchange { trackedInfo := info, bestmoveMove := b }
      = analyze_result_of_exchange { trackedInfo := info, bestmoveMove := b2 } := by
  constructor
  · cases hpv : info.pv with
    | none => simp [analyze_result_of_exchange, format_result, hpv]
    | some l => cases l <;> simp [analyze_result_of_exchange, format_result, hpv]
  · rfl
